import Mathlib

/-
Verification development for the channel-processing pipeline of
stock_track_record (backend/app).  Each Python function relevant to the
claims is shallowly embedded as an executable Lean definition; theorems
about those definitions settle the claims.  External collaborators
(YouTube listing, Gemini classification, HTTP price providers, the
DynamoDB store) are modelled as explicit inputs (oracles / lists of
responses), so every definition is a pure function of its inputs.
-/

namespace StockTrack

/-- Channel `status` field values (`pending|processing|completed|failed|cancelled`,
see backend/app/db/dynamodb_models.py and the alembic migration). -/
inductive Status
  | pending
  | processing
  | completed
  | failed
  | cancelled
deriving DecidableEq

/-- Outcome of one submitted video task as observed by the drain loop of
`process_channel` (processing_service.py lines 349-374): `future.result()`
either returns normally (`ok`) or raises (`err`). -/
inductive TaskOutcome
  | ok
  | err
deriving DecidableEq

/-- One item of the video list returned by the YouTube listing
(`videos_data` entries in `process_channel`). -/
structure VideoData where
  videoId : String
  title : String
  publishedAt : String
deriving DecidableEq

/-- The status value the k-th re-read of the channel record observes,
given the (externally written) sequence of statuses; defaults to
`processing` past the end of the modelled sequence. -/
def statusAt (statuses : List Status) (k : Nat) : Status :=
  statuses.getD k Status.processing

/-- Observable events of the `as_completed` drain loop in `process_channel`
(processing_service.py lines 349-374):
`persists` is the sequence of `processed_video_count` values written by
`_update_channel_attr`, in order; `reads` is the sequence of channel-status
values observed by the in-loop `get_item` re-reads; `cancelledObserved` is
true when such a re-read saw `cancelled` (the loop then shuts the executor
down and returns); `drained` counts the futures drained from the loop. -/
structure DrainOut where
  persists : List Nat
  reads : List Status
  cancelledObserved : Bool
  drained : Nat
deriving DecidableEq

/-- Embedding of the drain loop of `process_channel` (lines 349-374).
`outcomes` is the sequence of task completions in `as_completed` order;
`statuses` is the sequence of status values that successive re-reads of the
channel record would observe (modelling concurrent external writes);
`c0` is the running `processed_count[0]`; `readIdx` indexes into `statuses`.
On a successful completion the code increments and persists the counter,
then re-reads the status and returns early if it is `cancelled`; on an
errored completion it logs, increments and persists the counter, and
continues without any status re-read. -/
def drainLoop : List TaskOutcome → List Status → Nat → Nat → DrainOut
  | [], _, _, _ => ⟨[], [], false, 0⟩
  | o :: rest, statuses, c0, readIdx =>
    match o with
    | TaskOutcome.err =>
      let r := drainLoop rest statuses (c0 + 1) readIdx
      ⟨(c0 + 1) :: r.persists, r.reads, r.cancelledObserved, r.drained + 1⟩
    | TaskOutcome.ok =>
      let st := statusAt statuses readIdx
      if st = Status.cancelled then
        ⟨[c0 + 1], [st], true, 1⟩
      else
        let r := drainLoop rest statuses (c0 + 1) (readIdx + 1)
        ⟨(c0 + 1) :: r.persists, st :: r.reads, r.cancelledObserved, r.drained + 1⟩

/-- Unfolding equation: empty drain. -/
theorem drainLoop_nil (statuses : List Status) (c0 readIdx : Nat) :
    drainLoop [] statuses c0 readIdx = ⟨[], [], false, 0⟩ := rfl

/-- Unfolding equation: an errored completion persists the incremented
counter and continues without a status re-read. -/
theorem drainLoop_cons_err (rest : List TaskOutcome) (statuses : List Status)
    (c0 readIdx : Nat) :
    drainLoop (TaskOutcome.err :: rest) statuses c0 readIdx
      = ⟨(c0 + 1) :: (drainLoop rest statuses (c0 + 1) readIdx).persists,
         (drainLoop rest statuses (c0 + 1) readIdx).reads,
         (drainLoop rest statuses (c0 + 1) readIdx).cancelledObserved,
         (drainLoop rest statuses (c0 + 1) readIdx).drained + 1⟩ := rfl

/-- Unfolding equation: a successful completion whose status re-read
observes `cancelled` ends the loop. -/
theorem drainLoop_cons_ok_cancel (rest : List TaskOutcome) (statuses : List Status)
    (c0 readIdx : Nat) (h : statusAt statuses readIdx = Status.cancelled) :
    drainLoop (TaskOutcome.ok :: rest) statuses c0 readIdx
      = ⟨[c0 + 1], [statusAt statuses readIdx], true, 1⟩ := by
  simp only [drainLoop]
  rw [if_pos h]

/-- Unfolding equation: a successful completion whose status re-read does
not observe `cancelled` records the read and continues. -/
theorem drainLoop_cons_ok_go (rest : List TaskOutcome) (statuses : List Status)
    (c0 readIdx : Nat) (h : ¬ statusAt statuses readIdx = Status.cancelled) :
    drainLoop (TaskOutcome.ok :: rest) statuses c0 readIdx
      = ⟨(c0 + 1) :: (drainLoop rest statuses (c0 + 1) (readIdx + 1)).persists,
         statusAt statuses readIdx :: (drainLoop rest statuses (c0 + 1) (readIdx + 1)).reads,
         (drainLoop rest statuses (c0 + 1) (readIdx + 1)).cancelledObserved,
         (drainLoop rest statuses (c0 + 1) (readIdx + 1)).drained + 1⟩ := by
  simp only [drainLoop]
  rw [if_neg h]

/-- How a run of `process_channel` returned. -/
inductive RunExit
  | zeroItems
  | noApiKey
  | cancelledEarly
  | cancelledFinal
  | completedOk
deriving DecidableEq

/-- Trace of one `process_channel` run: the channel-status values the
orchestrator itself writes (in order), the `video_count` values written,
the `processed_video_count` values persisted, the statuses observed by
re-reads, the number of drained tasks, and how the run returned. -/
structure RunResult where
  statusWrites : List Status
  videoCountWrites : List Nat
  persists : List Nat
  reads : List Status
  drained : Nat
  exitKind : RunExit
deriving DecidableEq

/-- Embedding of `process_channel` (processing_service.py lines 241-398)
from the point where the channel was found.  `videosResult` is the outcome
of the YouTube listing step (an exception there is caught at lines 302-304
and the run proceeds with an empty list); `alreadyProcessed` is the GSI3
existence probe of the pre-scheduling filter (lines 329-344); `outcome`
gives each scheduled task's completion outcome; `statuses` is the sequence
of status values successive channel re-reads observe.
Paths: zero videos writes `completed` with both counters zero and returns
(lines 306-310); a missing Gemini key writes `failed` (lines 316-319);
otherwise the drain loop runs starting from the count of filtered-out
videos, and afterwards a final status re-read (lines 377-382) decides
whether `completed` is written. -/
def processChannelModel (videosResult : Except String (List VideoData))
    (geminiKeyPresent : Bool)
    (alreadyProcessed : VideoData → Bool)
    (outcome : VideoData → TaskOutcome)
    (statuses : List Status) : RunResult :=
  let videosData := match videosResult with
    | Except.ok l => l
    | Except.error _ => []
  if videosData.isEmpty then
    { statusWrites := [Status.processing, Status.completed],
      videoCountWrites := [0], persists := [0], reads := [], drained := 0,
      exitKind := RunExit.zeroItems }
  else if !geminiKeyPresent then
    { statusWrites := [Status.processing, Status.failed],
      videoCountWrites := [videosData.length], persists := [], reads := [],
      drained := 0, exitKind := RunExit.noApiKey }
  else
    let toProcess := videosData.filter (fun v => !(alreadyProcessed v))
    let skipped := (videosData.filter (fun v => alreadyProcessed v)).length
    let d := drainLoop (toProcess.map outcome) statuses skipped 0
    if d.cancelledObserved then
      { statusWrites := [Status.processing], videoCountWrites := [videosData.length],
        persists := d.persists, reads := d.reads, drained := d.drained,
        exitKind := RunExit.cancelledEarly }
    else
      let finalSt := statusAt statuses d.reads.length
      if finalSt = Status.cancelled then
        { statusWrites := [Status.processing], videoCountWrites := [videosData.length],
          persists := d.persists, reads := d.reads ++ [finalSt], drained := d.drained,
          exitKind := RunExit.cancelledFinal }
      else
        { statusWrites := [Status.processing, Status.completed],
          videoCountWrites := [videosData.length],
          persists := d.persists, reads := d.reads ++ [finalSt], drained := d.drained,
          exitKind := RunExit.completedOk }

/-- The persisted counter values of the drain loop are exactly
`c0 + 1, c0 + 2, ..., c0 + drained`. -/
theorem drainLoop_persists_spec (outcomes : List TaskOutcome) (statuses : List Status)
    (c0 readIdx : Nat) :
    (drainLoop outcomes statuses c0 readIdx).persists
      = (List.range (drainLoop outcomes statuses c0 readIdx).drained).map
          (fun k => c0 + k + 1) := by
  induction outcomes generalizing c0 readIdx with
  | nil => simp [drainLoop_nil]
  | cons o rest ih =>
    have hmap : ∀ c0 n, (List.range (n + 1)).map (fun k => c0 + k + 1)
        = (c0 + 1) :: (List.range n).map (fun k => (c0 + 1) + k + 1) := by
      intro c n
      rw [List.range_succ_eq_map, List.map_cons, List.map_map]
      have hfun : ((fun k => c + k + 1) ∘ Nat.succ) = fun k => (c + 1) + k + 1 := by
        funext k
        simp [Function.comp]
        omega
      simp [hfun]
    cases o with
    | err =>
      rw [drainLoop_cons_err]
      rw [hmap]
      exact congrArg _ (ih (c0 + 1) readIdx)
    | ok =>
      by_cases h : statusAt statuses readIdx = Status.cancelled
      · rw [drainLoop_cons_ok_cancel rest statuses c0 readIdx h]
        simp [List.range_succ_eq_map]
      · rw [drainLoop_cons_ok_go rest statuses c0 readIdx h]
        rw [hmap]
        exact congrArg _ (ih (c0 + 1) (readIdx + 1))

/-- One counter persist happens per drained task (success or error alike). -/
theorem drainLoop_persists_length (outcomes : List TaskOutcome) (statuses : List Status)
    (c0 readIdx : Nat) :
    (drainLoop outcomes statuses c0 readIdx).persists.length
      = (drainLoop outcomes statuses c0 readIdx).drained := by
  rw [drainLoop_persists_spec]
  simp

/-- The loop drains at most the submitted tasks. -/
theorem drainLoop_drained_le (outcomes : List TaskOutcome) (statuses : List Status)
    (c0 readIdx : Nat) :
    (drainLoop outcomes statuses c0 readIdx).drained ≤ outcomes.length := by
  induction outcomes generalizing c0 readIdx with
  | nil => simp [drainLoop_nil]
  | cons o rest ih =>
    cases o with
    | err =>
      rw [drainLoop_cons_err]
      simpa using Nat.succ_le_succ (ih (c0 + 1) readIdx)
    | ok =>
      by_cases h : statusAt statuses readIdx = Status.cancelled
      · rw [drainLoop_cons_ok_cancel rest statuses c0 readIdx h]
        simp
      · rw [drainLoop_cons_ok_go rest statuses c0 readIdx h]
        simpa using Nat.succ_le_succ (ih (c0 + 1) (readIdx + 1))

/-- A status re-read happens exactly once per successfully-drained task:
errored completions persist the counter with no status check. -/
theorem drainLoop_reads_spec (outcomes : List TaskOutcome) (statuses : List Status)
    (c0 readIdx : Nat) :
    (drainLoop outcomes statuses c0 readIdx).reads.length
      = ((outcomes.take (drainLoop outcomes statuses c0 readIdx).drained).countP
          (fun o => o == TaskOutcome.ok)) := by
  induction outcomes generalizing c0 readIdx with
  | nil => simp [drainLoop_nil]
  | cons o rest ih =>
    cases o with
    | err =>
      rw [drainLoop_cons_err]
      simp [List.countP_cons, ih (c0 + 1) readIdx]
    | ok =>
      by_cases h : statusAt statuses readIdx = Status.cancelled
      · rw [drainLoop_cons_ok_cancel rest statuses c0 readIdx h]
        simp [List.countP_cons]
      · rw [drainLoop_cons_ok_go rest statuses c0 readIdx h]
        simp [List.countP_cons, ih (c0 + 1) (readIdx + 1)]

/-- Once an in-loop re-read observes `cancelled`, no further submitted task
is started: appending more pending tasks leaves the drain result unchanged. -/
theorem drainLoop_cancel_stops (outcomes : List TaskOutcome) (statuses : List Status)
    (c0 readIdx : Nat)
    (h : (drainLoop outcomes statuses c0 readIdx).cancelledObserved = true)
    (extra : List TaskOutcome) :
    drainLoop (outcomes ++ extra) statuses c0 readIdx
      = drainLoop outcomes statuses c0 readIdx := by
  induction outcomes generalizing c0 readIdx with
  | nil => rw [drainLoop_nil] at h; simp at h
  | cons o rest ih =>
    cases o with
    | err =>
      rw [drainLoop_cons_err] at h
      simp only at h
      rw [List.cons_append, drainLoop_cons_err, drainLoop_cons_err,
        ih (c0 + 1) readIdx h]
    | ok =>
      by_cases hc : statusAt statuses readIdx = Status.cancelled
      · rw [List.cons_append, drainLoop_cons_ok_cancel rest statuses c0 readIdx hc,
          drainLoop_cons_ok_cancel (rest ++ extra) statuses c0 readIdx hc]
      · rw [drainLoop_cons_ok_go rest statuses c0 readIdx hc] at h
        simp only at h
        rw [List.cons_append, drainLoop_cons_ok_go rest statuses c0 readIdx hc,
          drainLoop_cons_ok_go (rest ++ extra) statuses c0 readIdx hc,
          ih (c0 + 1) (readIdx + 1) h]

/-- Splitting a list by a Boolean predicate preserves total length. -/
theorem filter_split_length {α : Type} (p : α → Bool) (l : List α) :
    (l.filter (fun a => p a)).length + (l.filter (fun a => !(p a))).length
      = l.length := by
  induction l with
  | nil => rfl
  | cons a t ih =>
    by_cases h : p a
    · simp [List.filter_cons, h]
      omega
    · simp [List.filter_cons, h]
      omega

/-- Every persisted counter value lies strictly above the starting count and
at most `c0 + drained`. -/
theorem drainLoop_persists_mem_bound (outcomes : List TaskOutcome)
    (statuses : List Status) (c0 readIdx : Nat) (v : Nat)
    (hv : v ∈ (drainLoop outcomes statuses c0 readIdx).persists) :
    c0 < v ∧ v ≤ c0 + (drainLoop outcomes statuses c0 readIdx).drained := by
  rw [drainLoop_persists_spec] at hv
  simp only [List.mem_map, List.mem_range] at hv
  obtain ⟨k, hk, hkv⟩ := hv
  omega

/-- The persisted counter values are pairwise non-decreasing. -/
theorem drainLoop_persists_pairwise (outcomes : List TaskOutcome)
    (statuses : List Status) (c0 readIdx : Nat) :
    (drainLoop outcomes statuses c0 readIdx).persists.Pairwise
      (fun a b => a ≤ b) := by
  rw [drainLoop_persists_spec]
  refine List.Pairwise.map _ (fun a b hab => ?_) (List.pairwise_lt_range _)
  omega

/-- In the drain branch of `process_channel`, every persisted
`processed_video_count` value is at most the number of discovered videos
(the filtered-out count plus the drained count cannot exceed it). -/
theorem drain_branch_persist_bound (videosData : List VideoData)
    (ap : VideoData → Bool) (oc : VideoData → TaskOutcome)
    (statuses : List Status) (v : Nat)
    (hv : v ∈ (drainLoop ((videosData.filter (fun x => !(ap x))).map oc) statuses
        ((videosData.filter (fun x => ap x)).length) 0).persists) :
    v ≤ videosData.length := by
  have hb := drainLoop_persists_mem_bound _ _ _ _ _ hv
  have hd := drainLoop_drained_le ((videosData.filter (fun x => !(ap x))).map oc)
    statuses ((videosData.filter (fun x => ap x)).length) 0
  rw [List.length_map] at hd
  have hsplit := filter_split_length ap videosData
  omega

/-- C1 (claim as stated is false): after a task that raised an error, the
drain loop increments and persists the counter but performs no status
re-read.  Concretely, with one errored task and the channel already set to
`cancelled`, one task is drained yet the number of in-loop status re-reads
is zero, so the orchestrator does not re-read the status after each
completed task. -/
theorem drain_error_no_reread_cex :
    (drainLoop [TaskOutcome.err] [Status.cancelled] 0 0).reads.length
      ≠ (drainLoop [TaskOutcome.err] [Status.cancelled] 0 0).drained := by
  decide

/-- Case analysis on the status writes and exit kind of a
`process_channel` run: the orchestrator writes `completed` only on the
zero-items path and the normal completion path; a missing Gemini key
writes `failed`; both cancellation exits leave only the initial
`processing` write. -/
theorem processChannelModel_cases (vr : Except String (List VideoData))
    (gk : Bool) (ap : VideoData → Bool) (oc : VideoData → TaskOutcome)
    (statuses : List Status) :
    ((processChannelModel vr gk ap oc statuses).statusWrites
        = [Status.processing, Status.completed]
      ∧ ((processChannelModel vr gk ap oc statuses).exitKind = RunExit.zeroItems
        ∨ (processChannelModel vr gk ap oc statuses).exitKind = RunExit.completedOk))
    ∨ ((processChannelModel vr gk ap oc statuses).statusWrites
        = [Status.processing, Status.failed]
      ∧ (processChannelModel vr gk ap oc statuses).exitKind = RunExit.noApiKey)
    ∨ ((processChannelModel vr gk ap oc statuses).statusWrites
        = [Status.processing]
      ∧ ((processChannelModel vr gk ap oc statuses).exitKind = RunExit.cancelledEarly
        ∨ (processChannelModel vr gk ap oc statuses).exitKind = RunExit.cancelledFinal)) := by
  simp only [processChannelModel]
  split
  · exact Or.inl ⟨rfl, Or.inl rfl⟩
  · split
    · exact Or.inr (Or.inl ⟨rfl, rfl⟩)
    · split
      · exact Or.inr (Or.inr ⟨rfl, Or.inl rfl⟩)
      · split
        · exact Or.inr (Or.inr ⟨rfl, Or.inr rfl⟩)
        · exact Or.inl ⟨rfl, Or.inr rfl⟩

/-- C1 (amended): in the drain loop, every completed task (success or
error) increments and persists the counter under the progress lock, but the
channel-status re-read happens only after successful completions — reads
equal the number of successfully drained tasks, not all drained tasks.
Whenever a re-read does observe `cancelled`, the loop starts no further
task (appending more pending tasks changes nothing) and the run returns
without the orchestrator ever writing status `completed`. -/
theorem drain_cancel_polling_correct :
    (∀ outcomes statuses c0 readIdx,
        (drainLoop outcomes statuses c0 readIdx).persists.length
          = (drainLoop outcomes statuses c0 readIdx).drained
        ∧ (drainLoop outcomes statuses c0 readIdx).reads.length
          = ((outcomes.take (drainLoop outcomes statuses c0 readIdx).drained).countP
              (fun o => o == TaskOutcome.ok)))
    ∧ (∀ outcomes statuses c0 readIdx extra,
        (drainLoop outcomes statuses c0 readIdx).cancelledObserved = true →
        drainLoop (outcomes ++ extra) statuses c0 readIdx
          = drainLoop outcomes statuses c0 readIdx)
    ∧ (∀ vr gk ap oc statuses,
        ((processChannelModel vr gk ap oc statuses).exitKind = RunExit.cancelledEarly
          ∨ (processChannelModel vr gk ap oc statuses).exitKind = RunExit.cancelledFinal)
        → Status.completed ∉ (processChannelModel vr gk ap oc statuses).statusWrites) := by
  refine ⟨fun outcomes statuses c0 readIdx =>
      ⟨drainLoop_persists_length _ _ _ _, drainLoop_reads_spec _ _ _ _⟩,
    fun outcomes statuses c0 readIdx extra h =>
      drainLoop_cancel_stops _ _ _ _ h extra, ?_⟩
  intro vr gk ap oc statuses h
  rcases processChannelModel_cases vr gk ap oc statuses with
    ⟨hw, he⟩ | ⟨hw, he⟩ | ⟨hw, he⟩
  · rcases h with h | h <;> rcases he with he | he <;> rw [he] at h <;> simp at h
  · rcases h with h | h <;> rw [he] at h <;> simp at h
  · rw [hw]
    decide

/-- Witness for the amended C1 theorem: a concrete run of one video whose
task succeeds while the status was concurrently set to `cancelled` returns
without the orchestrator writing `completed`. -/
theorem drain_cancel_polling_correct_witness :
    Status.completed ∉ (processChannelModel
      (Except.ok [⟨"vid1", "title", "2024-01-02"⟩]) true
      (fun _ => false) (fun _ => TaskOutcome.ok)
      [Status.cancelled]).statusWrites :=
  drain_cancel_polling_correct.2.2 _ _ _ _ _ (Or.inl (by decide))

/-- C4: within one run, the persisted `processed_video_count` values are
pairwise non-decreasing and never exceed the written `video_count`, and the
drain loop persists the counter exactly once per drained task, for errored
completions as much as for successful ones. -/
theorem processed_count_monotone_bounded :
    (∀ vr gk ap oc statuses,
        (processChannelModel vr gk ap oc statuses).persists.Pairwise
          (fun a b => a ≤ b)
        ∧ (∀ v ∈ (processChannelModel vr gk ap oc statuses).persists,
            v ≤ (processChannelModel vr gk ap oc statuses).videoCountWrites.getLast?.getD 0))
    ∧ (∀ outcomes statuses c0 readIdx,
        (drainLoop outcomes statuses c0 readIdx).persists.length
          = (drainLoop outcomes statuses c0 readIdx).drained) := by
  refine ⟨?_, fun outcomes statuses c0 readIdx => drainLoop_persists_length _ _ _ _⟩
  intro vr gk ap oc statuses
  simp only [processChannelModel]
  split
  · simp
  · split
    · simp
    · split
      · exact ⟨drainLoop_persists_pairwise _ _ _ _,
          fun v hv => by
            simpa using drain_branch_persist_bound _ _ _ _ v hv⟩
      · split
        · exact ⟨drainLoop_persists_pairwise _ _ _ _,
            fun v hv => by
              simpa using drain_branch_persist_bound _ _ _ _ v hv⟩
        · exact ⟨drainLoop_persists_pairwise _ _ _ _,
            fun v hv => by
              simpa using drain_branch_persist_bound _ _ _ _ v hv⟩

/-- Witness for C4: with two fresh videos whose tasks both succeed, the
persisted counter values are pairwise non-decreasing and the value 2
(reached after the second drain) is at most the written video count. -/
theorem processed_count_monotone_bounded_witness :
    (processChannelModel (Except.ok [⟨"a", "t1", "2024-01-01"⟩, ⟨"b", "t2", "2024-01-02"⟩])
        true (fun _ => false) (fun _ => TaskOutcome.ok) []).persists.Pairwise
      (fun a b => a ≤ b)
    ∧ (2 : Nat) ≤ (processChannelModel
        (Except.ok [⟨"a", "t1", "2024-01-01"⟩, ⟨"b", "t2", "2024-01-02"⟩])
        true (fun _ => false) (fun _ => TaskOutcome.ok) []).videoCountWrites.getLast?.getD 0 :=
  ⟨(processed_count_monotone_bounded.1 _ _ _ _ _).1,
   (processed_count_monotone_bounded.1 _ _ _ _ _).2 2 (by decide)⟩

/-- C9: when discovery yields zero videos — whether the YouTube listing
failed (exception caught, empty list) or genuinely returned none — the run
writes status `completed` with `video_count = 0` and
`processed_video_count = 0` and returns normally. -/
theorem zero_items_completed (vr : Except String (List VideoData))
    (gk : Bool) (ap : VideoData → Bool) (oc : VideoData → TaskOutcome)
    (statuses : List Status)
    (h : (∃ e, vr = Except.error e) ∨ vr = Except.ok []) :
    processChannelModel vr gk ap oc statuses
      = ⟨[Status.processing, Status.completed], [0], [0], [], 0,
         RunExit.zeroItems⟩ := by
  rcases h with ⟨e, rfl⟩ | rfl
  · simp [processChannelModel]
  · simp [processChannelModel]

/-- Witness for C9 at a concrete failed-discovery run. -/
theorem zero_items_completed_witness :
    processChannelModel (Except.error "YouTube API error") true
      (fun _ => false) (fun _ => TaskOutcome.ok) []
      = ⟨[Status.processing, Status.completed], [0], [0], [], 0,
         RunExit.zeroItems⟩ :=
  zero_items_completed _ _ _ _ _ (Or.inl ⟨"YouTube API error", rfl⟩)

/-- The channel record as the cancel endpoint sees it: its status and the
two counters (routers/channels.py; dynamodb_models.Channel). -/
structure ChannelItem where
  status : Status
  videoCount : Nat
  processedVideoCount : Nat
deriving DecidableEq

/-- Error responses of the cancel endpoint: HTTP 404 (channel not found)
and HTTP 400 (channel is not processing). -/
inductive ApiError
  | notFound
  | invalidState
deriving DecidableEq

/-- Embedding of `cancel_channel_processing` (routers/channels.py lines
133-152): looks the channel up; 404 when absent; 400 when its status is
not `processing` (the update is only reached after both checks, so the
record is untouched); otherwise writes status `cancelled` and returns the
updated record.  The first component is the stored record afterwards, the
second the endpoint response. -/
def cancelChannelProcessing :
    Option ChannelItem → Option ChannelItem × Except ApiError ChannelItem
  | none => (none, Except.error ApiError.notFound)
  | some ch =>
    if ch.status = Status.processing then
      (some { ch with status := Status.cancelled },
       Except.ok { ch with status := Status.cancelled })
    else
      (some ch, Except.error ApiError.invalidState)

/-- C8: cancel succeeds exactly when the channel exists with status
`processing`, in which case only the status changes (to `cancelled`); a
channel in any other status yields an invalid-state error with the record
unchanged, and a missing channel yields a not-found error. -/
theorem cancel_only_when_processing :
    (cancelChannelProcessing none = (none, Except.error ApiError.notFound))
    ∧ (∀ ch : ChannelItem, ch.status = Status.processing →
        cancelChannelProcessing (some ch)
          = (some { ch with status := Status.cancelled },
             Except.ok { ch with status := Status.cancelled }))
    ∧ (∀ ch : ChannelItem, ch.status ≠ Status.processing →
        cancelChannelProcessing (some ch)
          = (some ch, Except.error ApiError.invalidState))
    ∧ (∀ c : Option ChannelItem,
        (∃ r, (cancelChannelProcessing c).2 = Except.ok r)
          ↔ ∃ ch, c = some ch ∧ ch.status = Status.processing) := by
  refine ⟨rfl, ?_, ?_, ?_⟩
  · intro ch h
    simp [cancelChannelProcessing, h]
  · intro ch h
    simp [cancelChannelProcessing, h]
  · intro c
    cases c with
    | none =>
      simp [cancelChannelProcessing]
    | some ch =>
      by_cases h : ch.status = Status.processing
      · simp [cancelChannelProcessing, h]
      · simp [cancelChannelProcessing, h]

/-- Witness for C8: cancelling a processing channel flips only its status;
cancelling a completed channel fails and leaves it unchanged. -/
theorem cancel_only_when_processing_witness :
    cancelChannelProcessing (some ⟨Status.processing, 5, 2⟩)
      = (some ⟨Status.cancelled, 5, 2⟩, Except.ok ⟨Status.cancelled, 5, 2⟩)
    ∧ cancelChannelProcessing (some ⟨Status.completed, 5, 2⟩)
      = (some ⟨Status.completed, 5, 2⟩, Except.error ApiError.invalidState) :=
  ⟨cancel_only_when_processing.2.1 ⟨Status.processing, 5, 2⟩ rfl,
   cancel_only_when_processing.2.2.1 ⟨Status.completed, 5, 2⟩ (by decide)⟩

/-! Historical price backfill, `backfill_historical_prices`
(processing_service.py lines 145-238).  Python string primitives are
embedded over character lists so that they are kernel-executable:
`upperString` is `str.upper`, `containsChar` is the `in` test, and
`splitOnChar` is `str.split` with a one-character separator. -/

/-- `str.upper()` over the characters of the string. -/
def upperString (s : String) : String := String.mk (s.data.map Char.toUpper)

/-- The Python membership test `c in s`. -/
def containsChar (s : String) (c : Char) : Bool := s.data.any (fun x => x == c)

/-- `str.split(sep)` for a one-character separator, over character lists:
splitting the empty string gives one empty field, and each separator
occurrence starts a new field. -/
def splitOnChar (sep : Char) : List Char → List (List Char)
  | [] => [[]]
  | c :: cs =>
    if c == sep then [] :: splitOnChar sep cs
    else match splitOnChar sep cs with
      | [] => [[c]]
      | h :: t => (c :: h) :: t

/-- `ticker.split('.')[1]` (used only under a `'.' in ticker` guard, so the
default is never taken on the guarded path). -/
def partAfterDot (t : String) : List Char := (splitOnChar '.' t.data).getD 1 []

/-- The suffix-convention skip of the backfill grouping
(processing_service.py line 187): a ticker containing a dot is dropped
unless the field after the first dot has exactly one character. -/
def skipNonUSTicker (t : String) : Bool :=
  containsChar t '.' && !((partAfterDot t).length == 1)

/-- A stored video as the backfill reads it (`Video.from_item`), with
`date.fromisoformat(video.published_at)` modelled as an abstract day
number. -/
structure BVideo where
  id : Nat
  publishedAt : Int
deriving DecidableEq

/-- A stored stock mention as the backfill reads it
(`StockMention.from_item`). -/
structure BMention where
  id : Nat
  videoId : Nat
  ticker : String
  priceAtMention : Option ℚ
deriving DecidableEq

/-- One `update_item` the backfill performs: the mention it updates, the
group ticker, the trading date whose close is written, the mention's
publish date it was matched against, and the written close price.  (Only
the price reaches the store; the dates are carried for specification.) -/
structure PriceUpdate where
  mentionId : Nat
  ticker : String
  tradingDate : Int
  targetDate : Int
  close : ℚ
deriving DecidableEq

/-- Insertion into the `ticker_mentions` dict (lines 188-191): appends to
the existing key's list, else adds the key at the end (Python dicts keep
insertion order). -/
def insertGroup (acc : List (String × List (BMention × Int))) (t : String)
    (x : BMention × Int) : List (String × List (BMention × Int)) :=
  if acc.any (fun g => g.1 == t) then
    acc.map (fun g => if g.1 == t then (g.1, g.2 ++ [x]) else g)
  else acc ++ [(t, [x])]

/-- One iteration of the grouping loop (lines 183-191): drop the mention if
its video is unknown, uppercase the ticker, drop non-US dotted tickers,
otherwise record the mention with its video's publish date. -/
def groupStep (videos : List BVideo)
    (acc : List (String × List (BMention × Int))) (m : BMention) :
    List (String × List (BMention × Int)) :=
  match videos.find? (fun v => v.id == m.videoId) with
  | none => acc
  | some v =>
    let t := upperString m.ticker
    if skipNonUSTicker t then acc
    else insertGroup acc t (m, v.publishedAt)

/-- The `ticker_mentions` grouping of `backfill_historical_prices`
(lines 167-191): mentions still missing `price_at_mention` (the
`FilterExpression` of the query), grouped by uppercased ticker. -/
def groupTickers (videos : List BVideo) (mentions : List BMention) :
    List (String × List (BMention × Int)) :=
  (mentions.filter (fun m => m.priceAtMention == none)).foldl (groupStep videos) []

/-- Whether the grouping loop keeps mention `m`. -/
def groupAccepts (videos : List BVideo) (m : BMention) : Bool :=
  (videos.find? (fun v => v.id == m.videoId)).isSome
    && !(skipNonUSTicker (upperString m.ticker))

/-- Python `max` over a list (of dates), `none` on the empty list. -/
def listMaxInt : List Int → Option Int
  | [] => none
  | x :: xs =>
    match listMaxInt xs with
    | none => some x
    | some y => some (max x y)

/-- The date-selection step of the backfill (lines 222-224):
`valid_dates = [d for d in available_dates if d <= target_date]`, and the
chosen date is `max(valid_dates)` when any exist. -/
def selectOnOrBefore (avail : List Int) (target : Int) : Option Int :=
  listMaxInt (avail.filter (fun d => decide (d ≤ target)))

/-- `prices.get(closest_date)` over the provider's date-to-close mapping. -/
def lookupPrice (prices : List (Int × ℚ)) (d : Int) : Option ℚ :=
  (prices.find? (fun p => p.1 == d)).map Prod.snd

/-- The per-ticker write loop of the backfill (lines 218-233): with no
provider data the ticker is skipped; otherwise each mention whose valid
dates are nonempty gets the close of the max valid date written, provided
that close is truthy (`if price:` — a zero close is not written). -/
def backfillGroup (prices : List (Int × ℚ)) (t : String)
    (group : List (BMention × Int)) : List PriceUpdate :=
  if prices.isEmpty then []
  else
    group.filterMap (fun x =>
      match selectOnOrBefore (prices.map Prod.fst) x.2 with
      | none => none
      | some d =>
        match lookupPrice prices d with
        | none => none
        | some p => if p ≠ 0 then some ⟨x.1.id, t, d, x.2, p⟩ else none)

/-- `backfill_historical_prices` as the list of mention-price updates it
performs, given the provider's per-ticker historical series
(`_fetch_yahoo_historical`) as an oracle. -/
def backfillHistoricalPrices (videos : List BVideo) (mentions : List BMention)
    (oracle : String → List (Int × ℚ)) : List PriceUpdate :=
  ((groupTickers videos mentions).map
    (fun g => backfillGroup (oracle g.1) g.1 g.2)).flatten

/-- `max` of a nonempty list never fails. -/
theorem listMaxInt_eq_none (l : List Int) (h : listMaxInt l = none) : l = [] := by
  cases l with
  | nil => rfl
  | cons a t =>
    simp only [listMaxInt] at h
    cases ht : listMaxInt t <;> rw [ht] at h <;> simp at h

/-- `max` of a list is a member and an upper bound. -/
theorem listMaxInt_spec (l : List Int) (m : Int) (h : listMaxInt l = some m) :
    m ∈ l ∧ ∀ x ∈ l, x ≤ m := by
  induction l generalizing m with
  | nil => simp [listMaxInt] at h
  | cons a t ih =>
    simp only [listMaxInt] at h
    cases ht : listMaxInt t with
    | none =>
      have hte := listMaxInt_eq_none t ht
      subst hte
      rw [ht] at h
      simp only [Option.some.injEq] at h
      subst h
      simp
    | some y =>
      rw [ht] at h
      simp only [Option.some.injEq] at h
      obtain ⟨hy, hley⟩ := ih y ht
      subst h
      rcases le_total a y with hay | hya
      · rw [max_eq_right hay]
        exact ⟨List.mem_cons_of_mem _ hy,
          fun x hx => by
            rcases List.mem_cons.mp hx with rfl | hxm
            · exact hay
            · exact hley x hxm⟩
      · rw [max_eq_left hya]
        refine ⟨List.mem_cons_self _ _, fun x hx => ?_⟩
        rcases List.mem_cons.mp hx with rfl | hxm
        · exact le_refl x
        · exact le_trans (hley x hxm) hya

/-- The selected trading date is an available date on or before the target
and the largest such. -/
theorem selectOnOrBefore_spec (avail : List Int) (target d : Int)
    (h : selectOnOrBefore avail target = some d) :
    d ∈ avail ∧ d ≤ target ∧ ∀ x ∈ avail, x ≤ target → x ≤ d := by
  obtain ⟨hmem, hub⟩ := listMaxInt_spec _ _ h
  rw [List.mem_filter] at hmem
  refine ⟨hmem.1, of_decide_eq_true hmem.2, fun x hx hxt => ?_⟩
  exact hub x (List.mem_filter.mpr ⟨hx, decide_eq_true hxt⟩)

/-- When no available date is on or before the target, no date is
selected. -/
theorem selectOnOrBefore_none (avail : List Int) (target : Int)
    (h : ∀ x ∈ avail, ¬ x ≤ target) :
    selectOnOrBefore avail target = none := by
  unfold selectOnOrBefore
  have : avail.filter (fun d => decide (d ≤ target)) = [] := by
    rw [List.filter_eq_nil_iff]
    intro a ha
    simp only [decide_eq_true_eq]
    exact h a ha
  rw [this]
  rfl

/-- Every update a per-ticker write loop performs carries that group's
ticker, a trading date drawn from the provider data, on or before the
mention's publish date, and maximal among such dates. -/
theorem backfillGroup_mem_spec (prices : List (Int × ℚ)) (t : String)
    (group : List (BMention × Int)) (u : PriceUpdate)
    (hu : u ∈ backfillGroup prices t group) :
    u.ticker = t ∧ u.tradingDate ≤ u.targetDate
    ∧ u.tradingDate ∈ prices.map Prod.fst
    ∧ ∀ d ∈ prices.map Prod.fst, d ≤ u.targetDate → d ≤ u.tradingDate := by
  unfold backfillGroup at hu
  split at hu
  · simp at hu
  · rw [List.mem_filterMap] at hu
    obtain ⟨x, _, hfx⟩ := hu
    split at hfx
    · simp at hfx
    · rename_i d hsel
      split at hfx
      · simp at hfx
      · rename_i p hlp
        split at hfx
        · obtain rfl := Option.some.inj hfx
          obtain ⟨hmem, hle, hmax⟩ := selectOnOrBefore_spec _ _ _ hsel
          exact ⟨rfl, hle, hmem, hmax⟩
        · simp at hfx

/-- C2: every price the backfill writes is the close of an available
trading date that is on or before the mention's publish date, and the
maximum such available date; and when no available date is on or before
the publish date, the date selection yields nothing, so the mention is
left without a price rather than given a later date's close. -/
theorem backfill_no_lookahead :
    (∀ videos mentions oracle u, u ∈ backfillHistoricalPrices videos mentions oracle →
        u.tradingDate ≤ u.targetDate
        ∧ u.tradingDate ∈ (oracle u.ticker).map Prod.fst
        ∧ ∀ d ∈ (oracle u.ticker).map Prod.fst, d ≤ u.targetDate → d ≤ u.tradingDate)
    ∧ (∀ avail target, (∀ x ∈ avail, ¬ x ≤ target) →
        selectOnOrBefore avail target = none) := by
  refine ⟨?_, selectOnOrBefore_none⟩
  intro videos mentions oracle u hu
  unfold backfillHistoricalPrices at hu
  rw [List.mem_flatten] at hu
  obtain ⟨lu, hlu, hul⟩ := hu
  rw [List.mem_map] at hlu
  obtain ⟨g, _, rfl⟩ := hlu
  obtain ⟨hticker, hle, hmem, hmax⟩ := backfillGroup_mem_spec _ _ _ _ hul
  rw [hticker]
  exact ⟨hle, hmem, hmax⟩

/-- Witness for C2, Scenario D: mentions of XYZ published on days 10 and
20, provider closes on days 9 and 18 — the first mention receives day 9's
close, written with a trading date on or before its publish date. -/
theorem backfill_no_lookahead_witness :
    (⟨101, "XYZ", 9, 10, 5⟩ : PriceUpdate) ∈ backfillHistoricalPrices
        [⟨1, 10⟩, ⟨2, 20⟩]
        [⟨101, 1, "XYZ", none⟩, ⟨102, 2, "XYZ", none⟩]
        (fun t => if t == "XYZ" then [(9, 5), (18, 7)] else [])
    ∧ (⟨101, "XYZ", 9, 10, 5⟩ : PriceUpdate).tradingDate
        ≤ (⟨101, "XYZ", 9, 10, 5⟩ : PriceUpdate).targetDate :=
  ⟨by decide,
   (backfill_no_lookahead.1 [⟨1, 10⟩, ⟨2, 20⟩]
      [⟨101, 1, "XYZ", none⟩, ⟨102, 2, "XYZ", none⟩]
      (fun t => if t == "XYZ" then [(9, 5), (18, 7)] else [])
      ⟨101, "XYZ", 9, 10, 5⟩ (by decide)).1⟩

/-- Key membership after a dict insertion: the keys are the old keys plus
the inserted key. -/
theorem mem_keys_insertGroup (acc : List (String × List (BMention × Int)))
    (t : String) (x : BMention × Int) (s : String) :
    s ∈ (insertGroup acc t x).map Prod.fst ↔ s ∈ acc.map Prod.fst ∨ s = t := by
  unfold insertGroup
  by_cases h : acc.any (fun g => g.1 == t)
  · rw [if_pos h]
    have hkeys : (acc.map (fun g => if g.1 == t then (g.1, g.2 ++ [x]) else g)).map
        Prod.fst = acc.map Prod.fst := by
      rw [List.map_map]
      apply List.map_congr_left
      intro g _
      by_cases hgt : g.1 = t <;> simp [hgt]
    rw [hkeys]
    constructor
    · exact Or.inl
    · rintro (hs | rfl)
      · exact hs
      · rw [List.any_eq_true] at h
        obtain ⟨g, hg, hgt⟩ := h
        rw [List.mem_map]
        exact ⟨g, hg, eq_of_beq hgt⟩
  · rw [if_neg h, List.map_append]
    simp

/-- Key membership of the grouping fold: a ticker is a group key exactly
when some processed mention is accepted by the grouping loop and has that
uppercased ticker (or the key was already present). -/
theorem groupFold_keys (videos : List BVideo) (ms : List BMention)
    (acc : List (String × List (BMention × Int))) (t : String) :
    (t ∈ ((ms.foldl (groupStep videos) acc).map Prod.fst)) ↔
      t ∈ acc.map Prod.fst
      ∨ ∃ m, m ∈ ms ∧ groupAccepts videos m = true ∧ upperString m.ticker = t := by
  induction ms generalizing acc with
  | nil => simp
  | cons m ms ih =>
    rw [List.foldl_cons, ih]
    have hstep : (t ∈ (groupStep videos acc m).map Prod.fst) ↔
        (t ∈ acc.map Prod.fst
          ∨ (groupAccepts videos m = true ∧ upperString m.ticker = t)) := by
      unfold groupStep groupAccepts
      cases hf : videos.find? (fun v => v.id == m.videoId) with
      | none => simp
      | some v =>
        simp only [Option.isSome_some, Bool.true_and]
        by_cases hskip : skipNonUSTicker (upperString m.ticker)
        · simp [hskip]
        · rw [if_neg hskip, mem_keys_insertGroup]
          simp [hskip, eq_comm]
    rw [hstep]
    simp only [List.mem_cons]
    constructor
    · rintro ((ha | ⟨hacc, heq⟩) | ⟨m2, hm2, hacc2, heq2⟩)
      · exact Or.inl ha
      · exact Or.inr ⟨m, Or.inl rfl, hacc, heq⟩
      · exact Or.inr ⟨m2, Or.inr hm2, hacc2, heq2⟩
    · rintro (ha | ⟨m2, (rfl | hm2), hacc2, heq2⟩)
      · exact Or.inl (Or.inl ha)
      · exact Or.inl (Or.inr ⟨hacc2, heq2⟩)
      · exact Or.inr ⟨m2, hm2, hacc2, heq2⟩

/-- C6: a price-missing mention of a dotted ticker (with a known parent
video) gets a backfill group exactly when the field after the first dot is
one character long; a ticker that is not a group key never appears in any
performed price update, so its mentions are never assigned a backfill
price. -/
theorem backfill_dot_suffix_rule :
    (∀ videos mentions m, m ∈ mentions → m.priceAtMention = none →
        (videos.find? (fun v => v.id == m.videoId)).isSome = true →
        containsChar (upperString m.ticker) '.' = true →
        ((upperString m.ticker ∈ (groupTickers videos mentions).map Prod.fst)
          ↔ (partAfterDot (upperString m.ticker)).length = 1))
    ∧ (∀ videos mentions oracle t,
        t ∉ (groupTickers videos mentions).map Prod.fst →
        ∀ u ∈ backfillHistoricalPrices videos mentions oracle, u.ticker ≠ t) := by
  constructor
  · intro videos mentions m hm hprice hvid hdot
    unfold groupTickers
    rw [groupFold_keys]
    simp only [List.map_nil, List.not_mem_nil, false_or]
    constructor
    · rintro ⟨m2, _, hacc2, heq2⟩
      unfold groupAccepts at hacc2
      rw [Bool.and_eq_true] at hacc2
      have hskip := hacc2.2
      rw [heq2] at hskip
      simp only [skipNonUSTicker, hdot, Bool.true_and, Bool.not_not,
        Bool.not_eq_true] at hskip
      simpa using hskip
    · intro hlen
      refine ⟨m, List.mem_filter.mpr ⟨hm, by simp [hprice]⟩, ?_, rfl⟩
      unfold groupAccepts skipNonUSTicker
      simp [hvid, hdot, hlen]
  · intro videos mentions oracle t hnot u hu
    intro heq
    apply hnot
    unfold backfillHistoricalPrices at hu
    rw [List.mem_flatten] at hu
    obtain ⟨lu, hlu, hul⟩ := hu
    rw [List.mem_map] at hlu
    obtain ⟨g, hg, rfl⟩ := hlu
    have hticker := (backfillGroup_mem_spec _ _ _ _ hul).1
    rw [← heq, hticker]
    exact List.mem_map.mpr ⟨g, hg, rfl⟩

/-- Witness for C6, Scenario E: with one video and price-missing mentions
of HO.PA and BRK.A, the grouping keeps BRK.A (one-character suffix) and
drops HO.PA (two-character suffix). -/
theorem backfill_dot_suffix_rule_witness :
    upperString "BRK.A" ∈ (groupTickers [⟨1, 10⟩]
        [⟨201, 1, "HO.PA", none⟩, ⟨202, 1, "BRK.A", none⟩]).map Prod.fst
    ∧ upperString "HO.PA" ∉ (groupTickers [⟨1, 10⟩]
        [⟨201, 1, "HO.PA", none⟩, ⟨202, 1, "BRK.A", none⟩]).map Prod.fst := by
  constructor
  · exact (backfill_dot_suffix_rule.1 [⟨1, 10⟩]
      [⟨201, 1, "HO.PA", none⟩, ⟨202, 1, "BRK.A", none⟩]
      ⟨202, 1, "BRK.A", none⟩ (by decide) rfl (by decide) (by decide)).mpr (by decide)
  · intro hmem
    exact absurd ((backfill_dot_suffix_rule.1 [⟨1, 10⟩]
      [⟨201, 1, "HO.PA", none⟩, ⟨202, 1, "BRK.A", none⟩]
      ⟨201, 1, "HO.PA", none⟩ (by decide) rfl (by decide) (by decide)).mp hmem)
      (by decide)

/-! The worker, `process_video_threadsafe` (processing_service.py lines
401-507): race-safe existence re-check, publish-date parsing with a
today fallback, video creation, classification, and mention persistence. -/

/-- A calendar date as produced by `date.fromisoformat` /
`datetime.date()`. -/
structure IsoDate where
  year : Nat
  month : Nat
  day : Nat
deriving DecidableEq

/-- Digit run to number (the fields are validated as digits first). -/
def digitsToNat (l : List Char) : Nat :=
  l.foldl (fun acc c => acc * 10 + (c.toNat - 48)) 0

/-- Gregorian leap-year rule. -/
def isLeapYear (y : Nat) : Bool :=
  (y % 4 == 0 && y % 100 != 0) || (y % 400 == 0)

/-- Days in a month of a given year. -/
def daysInMonth (y m : Nat) : Nat :=
  if m == 2 then (if isLeapYear y then 29 else 28)
  else if m == 4 || m == 6 || m == 9 || m == 11 then 30
  else 31

/-- `date.fromisoformat`: accepts exactly `YYYY-MM-DD` with valid month
and day, failing on anything else. -/
def parseIsoDate (s : String) : Option IsoDate :=
  match splitOnChar '-' s.data with
  | [ys, ms, ds] =>
    if ys.length == 4 && ms.length == 2 && ds.length == 2
        && (ys ++ ms ++ ds).all (fun c => c.isDigit) then
      let y := digitsToNat ys
      let m := digitsToNat ms
      let d := digitsToNat ds
      if 1 ≤ m && m ≤ 12 && 1 ≤ d && d ≤ daysInMonth y m then
        some ⟨y, m, d⟩
      else none
    else none
  | _ => none

/-- `published_str.replace("Z", "+00:00")` (line 430): every `Z` becomes
`+00:00`. -/
def replaceZ (s : String) : String :=
  String.mk ((s.data.map
    (fun c => if c == 'Z' then String.data "+00:00" else [c])).flatten)

/-- The publish-date parsing of the worker (lines 427-434): a string
containing `T` goes through `datetime.fromisoformat` (modelled by the
`dtParse` oracle for the standard library, applied after the `Z`
replacement) and its date is taken; otherwise `date.fromisoformat` is
used; any parse failure falls back to `date.today()`. -/
def parsePublishedAt (dtParse : String → Option IsoDate) (today : IsoDate)
    (s : String) : IsoDate :=
  match (if containsChar s 'T' then dtParse (replaceZ s)
         else parseIsoDate s) with
  | some d => d
  | none => today

/-- One mention candidate returned by the Gemini classifier
(`extract_stock_mentions_from_video`), with the dict-lookup defaults of
lines 478-500 still unapplied. -/
structure MentionData where
  ticker : String
  sentiment : Option String
  context : Option String
deriving DecidableEq

/-- A stored Video record (`dynamodb_models.Video`) as the worker writes
it, with the publish date parsed. -/
structure StoredVideo where
  id : Nat
  youtubeVideoId : String
  title : String
  publishedAt : IsoDate
  transcriptStatus : String
  analysisStatus : String
deriving DecidableEq

/-- A stored StockMention record as the worker writes it
(`price_at_mention` is unset at creation, so it is omitted here). -/
structure StoredMention where
  videoId : Nat
  ticker : String
  sentiment : String
  contextSnippet : Option String
  publishedAt : IsoDate
deriving DecidableEq

/-- The portions of the store the worker touches: the Video records and
their StockMentions in the main table, and the tickers present in the
stocks table. -/
structure Store where
  videos : List StoredVideo
  mentions : List StoredMention
  stocks : List String
deriving DecidableEq

/-- The dict returned by `process_video_threadsafe`. -/
inductive TaskResult
  | skipped (videoId : String)
  | failed (videoId : String) (error : String)
  | completedR (videoId : String) (mentionCount : Nat)
deriving DecidableEq

/-- One iteration of the mention-saving loop (lines 477-504): uppercase
the ticker, drop it when empty or longer than five characters, ensure the
stock exists in the stocks table (a stub is written even when the info
lookup fails), then persist the mention with the defaulted sentiment, the
context snippet, and the video's (denormalized) publish date. -/
def saveMentionStep (freshId : Nat) (publishedAt : IsoDate)
    (p : Store × Nat) (md : MentionData) : Store × Nat :=
  let ticker := upperString md.ticker
  if ticker.data.isEmpty || decide (5 < ticker.data.length) then p
  else
    let acc := p.1
    let acc2 := if acc.stocks.any (fun t2 => t2 == ticker) then acc
      else { acc with stocks := acc.stocks ++ [ticker] }
    ({ acc2 with mentions := acc2.mentions
        ++ [⟨freshId, ticker, md.sentiment.getD "mentioned", md.context,
             publishedAt⟩] },
     p.2 + 1)

/-- Embedding of `process_video_threadsafe` (lines 401-507): the race-safe
existence re-check by external video id returns `skipped` with no store
change; otherwise the Video record is created with the parsed (or
defaulted) publish date, the classifier (`classify`, the outcome of the
Gemini call for this video) either fails — the video is marked
`analysis_status=failed` and a `failed` result returned — or yields
mention candidates that are persisted by the mention-saving loop. -/
def processVideoThreadsafe (s : Store) (vd : VideoData)
    (classify : Except String (List MentionData))
    (dtParse : String → Option IsoDate) (today : IsoDate) (freshId : Nat) :
    Store × TaskResult :=
  if s.videos.any (fun v => v.youtubeVideoId == vd.videoId) then
    (s, TaskResult.skipped vd.videoId)
  else
    let publishedAt := parsePublishedAt dtParse today vd.publishedAt
    let video : StoredVideo :=
      ⟨freshId, vd.videoId, vd.title, publishedAt, "fetched", "pending"⟩
    let s1 : Store := { s with videos := s.videos ++ [video] }
    match classify with
    | Except.error e =>
      ({ s1 with videos := s1.videos.map (fun v =>
          if v.id == freshId then { v with analysisStatus := "failed" } else v) },
       TaskResult.failed vd.videoId e)
    | Except.ok mentionsData =>
      let s2 : Store := { s1 with videos := s1.videos.map (fun v =>
          if v.id == freshId then { v with analysisStatus := "completed" } else v) }
      let r := mentionsData.foldl (saveMentionStep freshId publishedAt) (s2, 0)
      (r.1, TaskResult.completedR vd.videoId r.2)

/-- The orchestrator's pre-scheduling filter (lines 329-344): videos whose
external id already exists (GSI3 probe) are not scheduled. -/
def filterNewVideos (s : Store) (vds : List VideoData) : List VideoData :=
  vds.filter (fun v => !(s.videos.any (fun w => w.youtubeVideoId == v.videoId)))

/-- The mention-saving loop never touches the Video records. -/
theorem saveMentions_videos (freshId : Nat) (publishedAt : IsoDate)
    (mds : List MentionData) (p : Store × Nat) :
    (mds.foldl (saveMentionStep freshId publishedAt) p).1.videos
      = p.1.videos := by
  induction mds generalizing p with
  | nil => rfl
  | cons md mds ih =>
    rw [List.foldl_cons, ih]
    unfold saveMentionStep
    by_cases h : (upperString md.ticker).data.isEmpty
        || decide (5 < (upperString md.ticker).data.length)
    · rw [if_pos h]
    · rw [if_neg h]
      by_cases h2 : p.1.stocks.any (fun t2 => t2 == upperString md.ticker)
      · simp [h2]
      · simp [h2]

/-- Every mention present after the mention-saving loop was either already
stored or was appended by the loop, carrying the given publish date and
video id. -/
theorem saveMentions_mentions (freshId : Nat) (publishedAt : IsoDate)
    (mds : List MentionData) (p : Store × Nat) (m : StoredMention)
    (hm : m ∈ (mds.foldl (saveMentionStep freshId publishedAt) p).1.mentions) :
    m ∈ p.1.mentions ∨ (m.publishedAt = publishedAt ∧ m.videoId = freshId) := by
  induction mds generalizing p with
  | nil => exact Or.inl hm
  | cons md mds ih =>
    rw [List.foldl_cons] at hm
    rcases ih _ hm with hstep | hnew
    · unfold saveMentionStep at hstep
      by_cases h : (upperString md.ticker).data.isEmpty
          || decide (5 < (upperString md.ticker).data.length)
      · rw [if_pos h] at hstep
        exact Or.inl hstep
      · rw [if_neg h] at hstep
        by_cases h2 : p.1.stocks.any (fun t2 => t2 == upperString md.ticker)
        · simp only [h2, if_pos] at hstep
          rcases List.mem_append.mp hstep with hold | hone
          · exact Or.inl hold
          · rw [List.mem_singleton] at hone
            subst hone
            exact Or.inr ⟨rfl, rfl⟩
        · simp only [h2] at hstep
          rw [if_neg (by simp [h2])] at hstep
          rcases List.mem_append.mp hstep with hold | hone
          · exact Or.inl hold
          · rw [List.mem_singleton] at hone
            subst hone
            exact Or.inr ⟨rfl, rfl⟩
    · exact Or.inr hnew

/-- After a non-skipped worker run, the external video ids on record are
the old ones plus the processed one. -/
theorem pvts_videos_ids (s : Store) (vd : VideoData)
    (classify : Except String (List MentionData))
    (dtParse : String → Option IsoDate) (today : IsoDate) (freshId : Nat)
    (h : s.videos.any (fun v => v.youtubeVideoId == vd.videoId) = false) :
    ((processVideoThreadsafe s vd classify dtParse today freshId).1).videos.map
        (fun v => v.youtubeVideoId)
      = s.videos.map (fun v => v.youtubeVideoId) ++ [vd.videoId] := by
  unfold processVideoThreadsafe
  rw [if_neg (by simp [h])]
  have hmap : ∀ (l : List StoredVideo) (st : String),
      (l.map (fun v => if v.id == freshId
          then { v with analysisStatus := st } else v)).map
        (fun v => v.youtubeVideoId)
      = l.map (fun v => v.youtubeVideoId) := by
    intro l st
    rw [List.map_map]
    apply List.map_congr_left
    intro v _
    by_cases hv : v.id = freshId <;> simp [hv]
  cases classify with
  | error e =>
    simp only []
    rw [hmap, List.map_append]
    rfl
  | ok mds =>
    simp only []
    rw [saveMentions_videos, hmap, List.map_append]
    rfl

/-- A non-skipped worker run stores a Video record with the fresh id, the
processed external id, and the parsed (or defaulted) publish date. -/
theorem pvts_new_video_mem (s : Store) (vd : VideoData)
    (classify : Except String (List MentionData))
    (dtParse : String → Option IsoDate) (today : IsoDate) (freshId : Nat)
    (hnew : s.videos.any (fun v => v.youtubeVideoId == vd.videoId) = false) :
    ∃ v ∈ (processVideoThreadsafe s vd classify dtParse today freshId).1.videos,
      v.id = freshId ∧ v.youtubeVideoId = vd.videoId
      ∧ v.publishedAt = parsePublishedAt dtParse today vd.publishedAt := by
  unfold processVideoThreadsafe
  rw [if_neg (by simp [hnew])]
  cases classify with
  | error e =>
    refine ⟨⟨freshId, vd.videoId, vd.title,
      parsePublishedAt dtParse today vd.publishedAt, "fetched", "failed"⟩,
      ?_, rfl, rfl, rfl⟩
    simp only []
    rw [List.mem_map]
    refine ⟨⟨freshId, vd.videoId, vd.title,
      parsePublishedAt dtParse today vd.publishedAt, "fetched", "pending"⟩, ?_, ?_⟩
    · exact List.mem_append_right _ (List.mem_singleton.mpr rfl)
    · simp
  | ok mds =>
    refine ⟨⟨freshId, vd.videoId, vd.title,
      parsePublishedAt dtParse today vd.publishedAt, "fetched", "completed"⟩,
      ?_, rfl, rfl, rfl⟩
    simp only []
    rw [saveMentions_videos]
    simp only []
    rw [List.mem_map]
    refine ⟨⟨freshId, vd.videoId, vd.title,
      parsePublishedAt dtParse today vd.publishedAt, "fetched", "pending"⟩, ?_, ?_⟩
    · exact List.mem_append_right _ (List.mem_singleton.mpr rfl)
    · simp

/-- Mentions present after a non-skipped worker run are either
pre-existing or were written by this run with the run's parsed publish
date and the fresh video id. -/
theorem pvts_mentions_new (s : Store) (vd : VideoData)
    (classify : Except String (List MentionData))
    (dtParse : String → Option IsoDate) (today : IsoDate) (freshId : Nat)
    (hnew : s.videos.any (fun v => v.youtubeVideoId == vd.videoId) = false) :
    ∀ m ∈ (processVideoThreadsafe s vd classify dtParse today freshId).1.mentions,
      m ∈ s.mentions
      ∨ (m.publishedAt = parsePublishedAt dtParse today vd.publishedAt
          ∧ m.videoId = freshId) := by
  intro m hm
  unfold processVideoThreadsafe at hm
  rw [if_neg (by simp [hnew])] at hm
  cases classify with
  | error e => exact Or.inl hm
  | ok mds => exact saveMentions_mentions _ _ _ _ _ hm

/-- A non-skipped worker run never returns the `skipped` result (it
returns `failed` or `completed`, per the classifier outcome). -/
theorem pvts_result_not_skipped (s : Store) (vd : VideoData)
    (classify : Except String (List MentionData))
    (dtParse : String → Option IsoDate) (today : IsoDate) (freshId : Nat)
    (hnew : s.videos.any (fun v => v.youtubeVideoId == vd.videoId) = false) :
    ∀ y, (processVideoThreadsafe s vd classify dtParse today freshId).2
      ≠ TaskResult.skipped y := by
  intro y
  unfold processVideoThreadsafe
  rw [if_neg (by simp [hnew])]
  cases classify with
  | error e => simp
  | ok mds => simp

/-- A worker run that finds the external id already stored returns
`skipped` and leaves the store untouched. -/
theorem pvts_skip (s : Store) (vd : VideoData)
    (classify : Except String (List MentionData))
    (dtParse : String → Option IsoDate) (today : IsoDate) (freshId : Nat)
    (h : s.videos.any (fun v => v.youtubeVideoId == vd.videoId) = true) :
    processVideoThreadsafe s vd classify dtParse today freshId
      = (s, TaskResult.skipped vd.videoId) := by
  unfold processVideoThreadsafe
  rw [if_pos h]

/-- C3: reprocessing the same external video id has no effect — a worker
run that finds the id already stored returns `Skipped` leaving the store
untouched; a first run on a fresh id stores exactly one Video with that
external id, and the immediately following reprocessing attempt (any
classifier outcome, any dates) returns `Skipped` with the store
unchanged; and the orchestrator's pre-scheduling probe never schedules an
already-stored id at all. -/
theorem idempotent_reprocessing :
    (∀ s vd classify dtParse today freshId,
        s.videos.any (fun v => v.youtubeVideoId == vd.videoId) = true →
        processVideoThreadsafe s vd classify dtParse today freshId
          = (s, TaskResult.skipped vd.videoId))
    ∧ (∀ s vd c1 c2 dt1 dt2 t1 t2 f1 f2,
        s.videos.countP (fun v => v.youtubeVideoId == vd.videoId) = 0 →
        (processVideoThreadsafe s vd c1 dt1 t1 f1).1.videos.countP
            (fun v => v.youtubeVideoId == vd.videoId) = 1
        ∧ processVideoThreadsafe (processVideoThreadsafe s vd c1 dt1 t1 f1).1
              vd c2 dt2 t2 f2
            = ((processVideoThreadsafe s vd c1 dt1 t1 f1).1,
               TaskResult.skipped vd.videoId))
    ∧ (∀ s vds vd, vd ∈ vds →
        s.videos.any (fun v => v.youtubeVideoId == vd.videoId) = true →
        vd ∉ filterNewVideos s vds) := by
  refine ⟨?_, ?_, ?_⟩
  · exact pvts_skip
  · intro s vd c1 c2 dt1 dt2 t1 t2 f1 f2 hc
    have hany : s.videos.any (fun v => v.youtubeVideoId == vd.videoId) = false := by
      rw [List.any_eq_false]
      intro v hv
      exact List.countP_eq_zero.mp hc v hv
    have hids := pvts_videos_ids s vd c1 dt1 t1 f1 hany
    have hmap0 : (s.videos.map (fun v => v.youtubeVideoId)).countP
        (fun x => x == vd.videoId) = 0 := by
      rw [List.countP_map]
      exact hc
    have hcount1 : (processVideoThreadsafe s vd c1 dt1 t1 f1).1.videos.countP
        (fun v => v.youtubeVideoId == vd.videoId) = 1 := by
      have hcc := congrArg (fun l => l.countP (fun x => x == vd.videoId)) hids
      simp only [List.countP_append] at hcc
      rw [List.countP_map] at hcc
      rw [hmap0] at hcc
      simpa using hcc
    refine ⟨hcount1, ?_⟩
    have hmem : vd.videoId ∈ ((processVideoThreadsafe s vd c1 dt1 t1 f1).1.videos.map
        (fun v => v.youtubeVideoId)) := by
      rw [hids]
      simp
    have hany2 : (processVideoThreadsafe s vd c1 dt1 t1 f1).1.videos.any
        (fun v => v.youtubeVideoId == vd.videoId) = true := by
      rw [List.any_eq_true]
      rw [List.mem_map] at hmem
      obtain ⟨v, hv, hveq⟩ := hmem
      exact ⟨v, hv, by simp [hveq]⟩
    exact pvts_skip _ _ _ _ _ _ hany2
  · intro s vds vd _ hex hmem
    unfold filterNewVideos at hmem
    rw [List.mem_filter] at hmem
    have h2 := hmem.2
    simp [hex] at h2

/-- Witness for C3: on an empty store, processing external id `v1` once
stores exactly one Video for it, and the immediate second attempt is
skipped with the store unchanged. -/
theorem idempotent_reprocessing_witness :
    (processVideoThreadsafe ⟨[], [], []⟩ ⟨"v1", "Title", "2024-01-02"⟩
        (Except.ok [⟨"aapl", some "buy", none⟩]) (fun _ => none)
        ⟨2024, 1, 2⟩ 1).1.videos.countP
      (fun v => v.youtubeVideoId == "v1") = 1
    ∧ processVideoThreadsafe
        (processVideoThreadsafe ⟨[], [], []⟩ ⟨"v1", "Title", "2024-01-02"⟩
          (Except.ok [⟨"aapl", some "buy", none⟩]) (fun _ => none)
          ⟨2024, 1, 2⟩ 1).1
        ⟨"v1", "Title", "2024-01-02"⟩ (Except.ok []) (fun _ => none)
        ⟨2024, 1, 3⟩ 2
      = ((processVideoThreadsafe ⟨[], [], []⟩ ⟨"v1", "Title", "2024-01-02"⟩
          (Except.ok [⟨"aapl", some "buy", none⟩]) (fun _ => none)
          ⟨2024, 1, 2⟩ 1).1,
         TaskResult.skipped "v1") :=
  idempotent_reprocessing.2.1 ⟨[], [], []⟩ ⟨"v1", "Title", "2024-01-02"⟩
    (Except.ok [⟨"aapl", some "buy", none⟩]) (Except.ok []) (fun _ => none)
    (fun _ => none) ⟨2024, 1, 2⟩ ⟨2024, 1, 3⟩ 1 2 (by decide)

/-- C10: when the item's publish-date string is missing or fails both ISO
parses, the worker does not fail the item: the Video record is created
with publish date `date.today()`, every mention written by the run
inherits that substituted date, and the result is never `Skipped` —
classification and persistence proceed normally. -/
theorem unparseable_date_defaults_today (s : Store) (vd : VideoData)
    (classify : Except String (List MentionData))
    (dtParse : String → Option IsoDate) (today : IsoDate) (freshId : Nat)
    (hnew : s.videos.any (fun v => v.youtubeVideoId == vd.videoId) = false)
    (hparse : (if containsChar vd.publishedAt 'T' then dtParse (replaceZ vd.publishedAt)
        else parseIsoDate vd.publishedAt) = none) :
    (∃ v ∈ (processVideoThreadsafe s vd classify dtParse today freshId).1.videos,
        v.youtubeVideoId = vd.videoId ∧ v.publishedAt = today)
    ∧ (∀ m ∈ (processVideoThreadsafe s vd classify dtParse today freshId).1.mentions,
        m ∉ s.mentions → m.publishedAt = today ∧ m.videoId = freshId)
    ∧ (∀ y, (processVideoThreadsafe s vd classify dtParse today freshId).2
        ≠ TaskResult.skipped y) := by
  have hpub : parsePublishedAt dtParse today vd.publishedAt = today := by
    unfold parsePublishedAt
    rw [hparse]
  refine ⟨?_, ?_, pvts_result_not_skipped s vd classify dtParse today freshId hnew⟩
  · obtain ⟨v, hv, _, hyt, hpubv⟩ :=
      pvts_new_video_mem s vd classify dtParse today freshId hnew
    exact ⟨v, hv, hyt, by rw [hpubv, hpub]⟩
  · intro m hm hnotin
    rcases pvts_mentions_new s vd classify dtParse today freshId hnew m hm with
      h | ⟨h1, h2⟩
    · exact absurd h hnotin
    · exact ⟨by rw [h1, hpub], h2⟩

/-- Witness for C10: the unparseable string `not-a-date` yields a Video
dated today (2024-05-01) whose run still persists the classified mention
and is not skipped. -/
theorem unparseable_date_defaults_today_witness :
    (∃ v ∈ (processVideoThreadsafe ⟨[], [], []⟩ ⟨"v9", "Title", "not-a-date"⟩
        (Except.ok [⟨"nvda", some "buy", some "ctx"⟩]) (fun _ => none)
        ⟨2024, 5, 1⟩ 7).1.videos,
        v.youtubeVideoId = "v9" ∧ v.publishedAt = (⟨2024, 5, 1⟩ : IsoDate))
    ∧ (∀ y, (processVideoThreadsafe ⟨[], [], []⟩ ⟨"v9", "Title", "not-a-date"⟩
        (Except.ok [⟨"nvda", some "buy", some "ctx"⟩]) (fun _ => none)
        ⟨2024, 5, 1⟩ 7).2 ≠ TaskResult.skipped y) :=
  ⟨(unparseable_date_defaults_today ⟨[], [], []⟩ ⟨"v9", "Title", "not-a-date"⟩
      (Except.ok [⟨"nvda", some "buy", some "ctx"⟩]) (fun _ => none)
      ⟨2024, 5, 1⟩ 7 rfl (by decide)).1,
   (unparseable_date_defaults_today ⟨[], [], []⟩ ⟨"v9", "Title", "not-a-date"⟩
      (Except.ok [⟨"nvda", some "buy", some "ctx"⟩]) (fun _ => none)
      ⟨2024, 5, 1⟩ 7 rfl (by decide)).2.2⟩

/-! The aggregation read path, `get_channel_stocks`
(channel_service.py lines 174-281). -/

/-- A stored video as the aggregation reads it: publish date kept as the
stored ISO string (Python compares these strings for sorting). -/
structure AggVideo where
  id : Nat
  publishedAt : String
  title : String
deriving DecidableEq

/-- A stored stock mention as the aggregation reads it. -/
structure AggMention where
  videoId : Nat
  ticker : String
  sentiment : String
  priceAtMention : Option ℚ
  createdAt : String
deriving DecidableEq

/-- A row of the stocks table (`Stock.from_item`). -/
structure StockRow where
  ticker : String
  name : Option String
  lastPrice : Option ℚ
deriving DecidableEq

/-- One element of the list `get_channel_stocks` returns (the fields the
claims concern). -/
structure ChannelStockAgg where
  ticker : String
  buyCount : Nat
  holdCount : Nat
  sellCount : Nat
  mentionedCount : Nat
  totalMentions : Nat
  priceAtFirstMention : Option ℚ
  currentPrice : Option ℚ
  priceChangePercent : Option ℚ
deriving DecidableEq

/-- Group keys in first-appearance order (`stock_data` is a Python dict,
which preserves insertion order). -/
def dedupTickers (mentions : List AggMention) : List String :=
  mentions.foldl
    (fun acc m => if acc.any (fun t => t == m.ticker) then acc
      else acc ++ [m.ticker]) []

/-- The sentiment tally of lines 217-224: `buy`, `elif hold`, `elif sell`,
else `mentioned`. -/
def bucketStep (c : Nat × Nat × Nat × Nat) (m : AggMention) :
    Nat × Nat × Nat × Nat :=
  if m.sentiment == "buy" then (c.1 + 1, c.2.1, c.2.2.1, c.2.2.2)
  else if m.sentiment == "hold" then (c.1, c.2.1 + 1, c.2.2.1, c.2.2.2)
  else if m.sentiment == "sell" then (c.1, c.2.1, c.2.2.1 + 1, c.2.2.2)
  else (c.1, c.2.1, c.2.2.1, c.2.2.2 + 1)

/-- Per-group sentiment bucket counts (buy, hold, sell, mentioned). -/
def sentimentBucketCounts (group : List AggMention) : Nat × Nat × Nat × Nat :=
  group.foldl bucketStep (0, 0, 0, 0)

/-- The sort key of lines 229-234: the parent video's publish date, or the
mention's creation timestamp when the video is unknown. -/
def sortKey (videos : List AggVideo) (m : AggMention) : String :=
  match videos.find? (fun v => v.id == m.videoId) with
  | some v => v.publishedAt
  | none => m.createdAt

/-- `mentions_sorted[0]` under Python's stable sort: the earliest-keyed
mention, first occurrence winning ties. -/
def firstMention (videos : List AggVideo) : List AggMention → Option AggMention
  | [] => none
  | m :: rest => some (rest.foldl
      (fun best x => if sortKey videos x < sortKey videos best then x else best) m)

/-- Python truthiness of an optional price: `None` and `0` are falsy. -/
def truthyPrice : Option ℚ → Bool
  | none => false
  | some x => !(x == 0)

/-- The percent-change computation of lines 273-279: performed only when
both prices are truthy, i.e. present and non-zero. -/
def priceChangeOfPrices (pafm cur : Option ℚ) : Option ℚ :=
  if truthyPrice pafm && truthyPrice cur then
    some ((cur.getD 0 - pafm.getD 0) / pafm.getD 0 * 100)
  else none

/-- One output row of `get_channel_stocks` for ticker `t`. -/
def buildRow (videos : List AggVideo) (stocksTable : String → Option StockRow)
    (mentions : List AggMention) (t : String) : ChannelStockAgg :=
  let group := mentions.filter (fun m => m.ticker == t)
  let counts := sentimentBucketCounts group
  let pafm : Option ℚ := match firstMention videos group with
    | some m => m.priceAtMention
    | none => none
  let cur : Option ℚ := match stocksTable t with
    | some srow => srow.lastPrice
    | none => none
  ⟨t, counts.1, counts.2.1, counts.2.2.1, counts.2.2.2, group.length,
   pafm, cur, priceChangeOfPrices pafm cur⟩

/-- Embedding of `get_channel_stocks`: one aggregate row per distinct
ticker, in first-appearance order. -/
def getChannelStocks (videos : List AggVideo) (mentions : List AggMention)
    (stocksTable : String → Option StockRow) : List ChannelStockAgg :=
  (dedupTickers mentions).map (buildRow videos stocksTable mentions)

/-- Each tallied mention lands in exactly one sentiment bucket. -/
theorem bucketStep_sum (c : Nat × Nat × Nat × Nat) (m : AggMention) :
    (bucketStep c m).1 + (bucketStep c m).2.1 + (bucketStep c m).2.2.1
        + (bucketStep c m).2.2.2
      = c.1 + c.2.1 + c.2.2.1 + c.2.2.2 + 1 := by
  unfold bucketStep
  by_cases h1 : m.sentiment = "buy" <;> by_cases h2 : m.sentiment = "hold" <;>
    by_cases h3 : m.sentiment = "sell" <;> simp [h1, h2, h3] <;> omega

/-- The four bucket counts of the tally fold sum to the group size. -/
theorem bucketFold_sum (l : List AggMention) :
    ∀ c : Nat × Nat × Nat × Nat,
      (l.foldl bucketStep c).1 + (l.foldl bucketStep c).2.1
          + (l.foldl bucketStep c).2.2.1 + (l.foldl bucketStep c).2.2.2
        = c.1 + c.2.1 + c.2.2.1 + c.2.2.2 + l.length := by
  induction l with
  | nil => intro c; simp
  | cons m l ih =>
    intro c
    rw [List.foldl_cons, ih (bucketStep c m)]
    have hb := bucketStep_sum c m
    simp only [List.length_cons]
    omega

/-- The truthiness-guarded percent change, rewritten by cases on the two
optional prices. -/
theorem priceChangeOfPrices_eq (pafm cur : Option ℚ) :
    priceChangeOfPrices pafm cur
      = match pafm, cur with
        | some f, some c => if f ≠ 0 ∧ c ≠ 0 then some ((c - f) / f * 100) else none
        | _, _ => none := by
  cases pafm with
  | none => cases cur <;> rfl
  | some f =>
    cases cur with
    | none => simp [priceChangeOfPrices, truthyPrice]
    | some c =>
      unfold priceChangeOfPrices truthyPrice
      by_cases hf : f = 0
      · simp [hf]
      · by_cases hc : c = 0
        · simp [hf, hc]
        · simp [hf, hc]

/-- C5 (amended): for every aggregation row, the four sentiment bucket
counts sum to the total mention count; and the percent change equals
`(current - first) / first * 100` exactly when both prices are present
and both are non-zero — a present-but-zero current price also yields
null, by the same truthiness guard that nulls a zero first-mention
price. -/
theorem agg_buckets_and_price_change :
    ∀ videos mentions stocksTable r,
      r ∈ getChannelStocks videos mentions stocksTable →
      (r.buyCount + r.holdCount + r.sellCount + r.mentionedCount
          = r.totalMentions)
      ∧ (r.priceChangePercent
          = match r.priceAtFirstMention, r.currentPrice with
            | some f, some c =>
              if f ≠ 0 ∧ c ≠ 0 then some ((c - f) / f * 100) else none
            | _, _ => none) := by
  intro videos mentions stocksTable r hr
  unfold getChannelStocks at hr
  rw [List.mem_map] at hr
  obtain ⟨t, _, rfl⟩ := hr
  constructor
  · simp only [buildRow]
    simpa using bucketFold_sum (mentions.filter (fun m => m.ticker == t)) (0, 0, 0, 0)
  · simp only [buildRow]
    exact priceChangeOfPrices_eq _ _

/-- Witness for the amended C5 at a concrete one-mention channel whose
stock row is absent: bucket counts sum to the total. -/
theorem agg_buckets_and_price_change_witness :
    ((⟨"X", 1, 0, 0, 0, 1, some 5, none, none⟩ : ChannelStockAgg).buyCount
        + (⟨"X", 1, 0, 0, 0, 1, some 5, none, none⟩ : ChannelStockAgg).holdCount
        + (⟨"X", 1, 0, 0, 0, 1, some 5, none, none⟩ : ChannelStockAgg).sellCount
        + (⟨"X", 1, 0, 0, 0, 1, some 5, none, none⟩ : ChannelStockAgg).mentionedCount
      = (⟨"X", 1, 0, 0, 0, 1, some 5, none, none⟩ : ChannelStockAgg).totalMentions) :=
  (agg_buckets_and_price_change [⟨1, "2024-01-02", "T"⟩]
    [⟨1, "X", "buy", some 5, "c1"⟩] (fun _ => none)
    ⟨"X", 1, 0, 0, 0, 1, some 5, none, none⟩ (by decide)).1

/-- C5 (claim as stated is false): with a first-mention price of 5 and a
present current price of 0, the code leaves `price_change_percent` null
(Python truthiness treats 0 as absent), while the claim — both prices
present and first-mention price non-zero — demands the computed value. -/
theorem agg_price_change_zero_current_cex :
    ((getChannelStocks [⟨1, "2024-01-02", "T"⟩]
        [⟨1, "X", "buy", some 5, "c1"⟩]
        (fun t => if t == "X" then some ⟨"X", none, some 0⟩ else none)).map
      (fun r => (r.priceAtFirstMention, r.currentPrice, r.priceChangePercent)))
      = [(some 5, some 0, none)]
    ∧ (none : Option ℚ) ≠ some (((0 : ℚ) - 5) / 5 * 100) := by
  constructor
  · decide
  · simp

/-! The price provider calls, `get_finnhub_quote` and
`get_batch_current_prices_finnhub` (stock_price_service.py lines 16-69). -/

/-- Classified outcome of one HTTP request to the Finnhub quote endpoint:
a 200 response whose body's `c` field may be absent, a non-200 status
(429 rate limit, 5xx, ...), or a raised client exception. -/
inductive QuoteResp
  | success (c : Option ℚ)
  | httpError (code : Nat)
  | networkError
deriving DecidableEq

/-- Embedding of `get_finnhub_quote` (lines 16-32) over the sequence of
responses the provider would give to successive requests; the unconsumed
suffix is returned so the number of requests issued is observable.  The
function issues exactly one request: a 200 body with `c` present and
positive yields the price, and every other outcome — rate limit, server
error, network error, missing or non-positive `c` — yields `none` with no
further request. -/
def getFinnhubQuote : List QuoteResp → Option ℚ × List QuoteResp
  | [] => (none, [])
  | r :: rest =>
    (match r with
     | QuoteResp.success (some p) => if 0 < p then some p else none
     | QuoteResp.success none => none
     | QuoteResp.httpError _ => none
     | QuoteResp.networkError => none,
     rest)

/-- Observable events of one batch fetch: the price dict built, the
requests issued (upper-cased tickers, in order), and the `time.sleep`
durations in order (5 after a rate limit, 1.1 between calls). -/
structure BatchTrace where
  prices : List (String × ℚ)
  requests : List String
  sleeps : List ℚ
deriving DecidableEq

/-- The inter-call pacing sleep of the batch loop (lines 65-67): a
1.1-second sleep after every call except the last of the batch. -/
def batchGap (rest : List String) (tailSleeps : List ℚ) : List ℚ :=
  if rest.isEmpty then tailSleeps else ((11 : ℚ) / 10) :: tailSleeps

/-- The per-ticker loop of `get_batch_current_prices_finnhub` (lines
47-67): one request per ticker; a 200 with positive `c` records the
price; a 429 sleeps 5 seconds; exceptions are swallowed; `batchGap`
inserts the inter-call 1.1-second sleep. -/
def batchLoop (respond : String → QuoteResp) : List String → BatchTrace
  | [] => ⟨[], [], []⟩
  | s :: rest =>
    match respond (upperString s) with
    | QuoteResp.success (some p) =>
      if 0 < p then
        ⟨(upperString s, p) :: (batchLoop respond rest).prices,
         upperString s :: (batchLoop respond rest).requests,
         batchGap rest (batchLoop respond rest).sleeps⟩
      else
        ⟨(batchLoop respond rest).prices,
         upperString s :: (batchLoop respond rest).requests,
         batchGap rest (batchLoop respond rest).sleeps⟩
    | QuoteResp.success none =>
      ⟨(batchLoop respond rest).prices,
       upperString s :: (batchLoop respond rest).requests,
       batchGap rest (batchLoop respond rest).sleeps⟩
    | QuoteResp.httpError code =>
      if code == 429 then
        ⟨(batchLoop respond rest).prices,
         upperString s :: (batchLoop respond rest).requests,
         (5 : ℚ) :: batchGap rest (batchLoop respond rest).sleeps⟩
      else
        ⟨(batchLoop respond rest).prices,
         upperString s :: (batchLoop respond rest).requests,
         batchGap rest (batchLoop respond rest).sleeps⟩
    | QuoteResp.networkError =>
      ⟨(batchLoop respond rest).prices,
       upperString s :: (batchLoop respond rest).requests,
       batchGap rest (batchLoop respond rest).sleeps⟩

/-- Embedding of `get_batch_current_prices_finnhub` (lines 35-69): the
ticker list is capped at `max_tickers` (55 at the call sites) and the loop
above runs over the remainder. -/
def getBatchCurrentPricesFinnhub (tickers : List String)
    (respond : String → QuoteResp) (maxTickers : Nat) : BatchTrace :=
  batchLoop respond (tickers.take maxTickers)

/-- One step of the batch loop appends exactly one request. -/
theorem batchLoop_requests_cons (respond : String → QuoteResp) (s : String)
    (rest : List String) :
    (batchLoop respond (s :: rest)).requests
      = upperString s :: (batchLoop respond rest).requests := by
  cases hr : respond (upperString s) with
  | success c =>
    cases c with
    | none => simp [batchLoop, hr]
    | some p => by_cases hp : 0 < p <;> simp [batchLoop, hr, hp]
  | httpError code => by_cases hc : code == 429 <;> simp [batchLoop, hr, hc]
  | networkError => simp [batchLoop, hr]

/-- One step of the batch loop records a price only for a 200 response
with positive `c`. -/
theorem batchLoop_prices_cons (respond : String → QuoteResp) (s : String)
    (rest : List String) :
    (batchLoop respond (s :: rest)).prices
      = (match respond (upperString s) with
         | QuoteResp.success (some p) =>
           if 0 < p then [(upperString s, p)] else []
         | _ => []) ++ (batchLoop respond rest).prices := by
  cases hr : respond (upperString s) with
  | success c =>
    cases c with
    | none => simp [batchLoop, hr]
    | some p => by_cases hp : 0 < p <;> simp [batchLoop, hr, hp]
  | httpError code => by_cases hc : code == 429 <;> simp [batchLoop, hr, hc]
  | networkError => simp [batchLoop, hr]

/-- One step of the batch loop sleeps 5 seconds exactly on a 429
response, then the inter-call gap. -/
theorem batchLoop_sleeps_cons (respond : String → QuoteResp) (s : String)
    (rest : List String) :
    (batchLoop respond (s :: rest)).sleeps
      = (match respond (upperString s) with
         | QuoteResp.httpError code => if code == 429 then [(5 : ℚ)] else []
         | _ => []) ++ batchGap rest (batchLoop respond rest).sleeps := by
  cases hr : respond (upperString s) with
  | success c =>
    cases c with
    | none => simp [batchLoop, hr]
    | some p => by_cases hp : 0 < p <;> simp [batchLoop, hr, hp]
  | httpError code => by_cases hc : code == 429 <;> simp [batchLoop, hr, hc]
  | networkError => simp [batchLoop, hr]

/-- The batch loop issues exactly one request per ticker, in order. -/
theorem batchLoop_requests (respond : String → QuoteResp) (l : List String) :
    (batchLoop respond l).requests = l.map upperString := by
  induction l with
  | nil => rfl
  | cons s rest ih =>
    rw [batchLoop_requests_cons, ih, List.map_cons]

/-- Every price the batch loop records came from a 200 response with a
positive `c` for that (upper-cased) ticker. -/
theorem batchLoop_prices_mem (respond : String → QuoteResp) (l : List String)
    (x : String × ℚ) (hx : x ∈ (batchLoop respond l).prices) :
    ∃ s ∈ l, x.1 = upperString s
      ∧ respond (upperString s) = QuoteResp.success (some x.2) ∧ 0 < x.2 := by
  induction l with
  | nil => simp [batchLoop] at hx
  | cons s rest ih =>
    rw [batchLoop_prices_cons] at hx
    rcases List.mem_append.mp hx with h1 | h2
    · cases hr : respond (upperString s) with
      | success c =>
        cases c with
        | none =>
          rw [hr] at h1
          simp at h1
        | some p =>
          rw [hr] at h1
          by_cases hp : 0 < p
          · simp only [hp, if_true, List.mem_singleton] at h1
            subst h1
            exact ⟨s, List.mem_cons_self _ _, rfl, hr, hp⟩
          · simp [hp] at h1
      | httpError code =>
        rw [hr] at h1
        simp at h1
      | networkError =>
        rw [hr] at h1
        simp at h1
    · obtain ⟨s2, hs2, h⟩ := ih h2
      exact ⟨s2, List.mem_cons_of_mem _ hs2, h⟩

/-- The inter-call gap contributes no 5-second sleep. -/
theorem batchGap_countP_five (rest : List String) (tailSleeps : List ℚ) :
    (batchGap rest tailSleeps).countP (fun x => x == (5 : ℚ))
      = tailSleeps.countP (fun x => x == (5 : ℚ)) := by
  unfold batchGap
  by_cases hre : rest.isEmpty
  · rw [if_pos hre]
  · rw [if_neg hre, List.countP_cons]
    have h1110 : (((11 : ℚ) / 10) == (5 : ℚ)) = false := by
      rw [beq_eq_false_iff_ne]
      norm_num
    rw [h1110]
    simp

/-- The 5-second sleeps of the batch loop correspond one-to-one to the
rate-limited responses; the 1.1-second inter-call gaps never count. -/
theorem batchLoop_rateLimit_sleeps (respond : String → QuoteResp)
    (l : List String) :
    (batchLoop respond l).sleeps.countP (fun x => x == (5 : ℚ))
      = (l.map upperString).countP
          (fun t => respond t == QuoteResp.httpError 429) := by
  induction l with
  | nil => rfl
  | cons s rest ih =>
    rw [batchLoop_sleeps_cons, List.countP_append, batchGap_countP_five, ih,
      List.map_cons, List.countP_cons]
    cases hr : respond (upperString s) with
    | success c =>
      cases c with
      | none => simp [hr]
      | some p => simp [hr]
    | httpError code =>
      by_cases hc : code = 429
      · subst hc
        simp [hr]
        omega
      · simp [hr, hc]
    | networkError => simp [hr]

/-- C7 (amended): no price-provider call is retried.  `get_finnhub_quote`
issues exactly one request whatever the outcome — transient failures
included — and returns no price on any failure; the batch fetch issues
exactly one request per ticker of the capped list, records prices only
from 200 responses with positive `c`, never re-requests a rate-limited
ticker (it gets no price in that batch), and sleeps 5 seconds once per
rate-limited response before moving on. -/
theorem provider_calls_not_retried :
    (∀ r rest, (getFinnhubQuote (r :: rest)).2 = rest)
    ∧ (∀ tickers respond maxTickers,
        (getBatchCurrentPricesFinnhub tickers respond maxTickers).requests
          = (tickers.take maxTickers).map upperString)
    ∧ (∀ tickers respond maxTickers t,
        respond t = QuoteResp.httpError 429 →
        ∀ p : ℚ, (t, p) ∉
          (getBatchCurrentPricesFinnhub tickers respond maxTickers).prices)
    ∧ (∀ tickers respond maxTickers,
        (getBatchCurrentPricesFinnhub tickers respond maxTickers).sleeps.countP
            (fun x => x == (5 : ℚ))
          = ((tickers.take maxTickers).map upperString).countP
              (fun t => respond t == QuoteResp.httpError 429)) := by
  refine ⟨fun r rest => rfl,
    fun tickers respond maxTickers => batchLoop_requests _ _,
    ?_,
    fun tickers respond maxTickers => batchLoop_rateLimit_sleeps _ _⟩
  intro tickers respond maxTickers t h429 p hp
  obtain ⟨s, _, hts, hsucc, _⟩ :=
    batchLoop_prices_mem respond (tickers.take maxTickers) (t, p) hp
  rw [← hts, h429] at hsucc
  exact QuoteResp.noConfusion hsucc

/-- Witness for the amended C7: a batch of one ticker whose every response
is a rate limit issues exactly its one request and records no price for
it. -/
theorem provider_calls_not_retried_witness :
    (getBatchCurrentPricesFinnhub ["aapl"] (fun _ => QuoteResp.httpError 429)
        55).requests = ["AAPL"]
    ∧ ("AAPL", (7 : ℚ)) ∉ (getBatchCurrentPricesFinnhub ["aapl"]
        (fun _ => QuoteResp.httpError 429) 55).prices :=
  ⟨by
    rw [provider_calls_not_retried.2.1 ["aapl"] (fun _ => QuoteResp.httpError 429) 55]
    decide,
   provider_calls_not_retried.2.2.1 ["aapl"] (fun _ => QuoteResp.httpError 429)
     55 "AAPL" rfl 7⟩

/-- C7 (claim as stated is false): a rate-limited (transient) first
response makes `get_finnhub_quote` return no price with the second
response — under which a retry would have succeeded with price 5 — left
unconsumed: exactly one request was issued, so the call was not retried. -/
theorem quote_no_retry_cex :
    getFinnhubQuote [QuoteResp.httpError 429, QuoteResp.success (some 5)]
      = (none, [QuoteResp.success (some 5)]) := rfl

end StockTrack
